import Mathlib

/-!
Verification development for the OSM layer core (ogrosmlayer.cpp):
per-layer output buffer, interleave scheduler, tag projection,
leftover-tag aggregation and the computed-attribute subsystem.
Each definition is a shallow embedding of the corresponding C++ code.
-/

set_option maxRecDepth 4000

/-- Soft cap on the per-layer feature buffer (constexpr SWITCH_THRESHOLD). -/
def SWITCH_THRESHOLD : Nat := 10000

/-- Hard cap on the per-layer feature buffer (constexpr MAX_THRESHOLD). -/
def MAX_THRESHOLD : Nat := 100000

/-- State of one OGROSMLayer feature buffer: the feature vector
m_apoFeatures, the delivery cursor m_nFeatureArrayIndex, and the
one-time overflow warning flag m_bHasWarnedTooManyFeatures. -/
structure Layer (α : Type) where
  m_apoFeatures : List α
  m_nFeatureArrayIndex : Nat
  m_bHasWarnedTooManyFeatures : Bool
deriving DecidableEq, Repr

/-- A freshly constructed layer buffer. -/
def emptyLayer (α : Type) : Layer α := ⟨[], 0, false⟩

/-- OGROSMLayer::AddToArray. When threshold checking is requested and the
vector size already strictly exceeds MAX_THRESHOLD, the feature is rejected
(returns false) and the warning flag is set; otherwise the feature is
appended at the end. The std::bad_alloc catch of the push_back is a memory
exhaustion path outside the value-level model. -/
def addToArray (poFeature : α) (bCheckFeatureThreshold : Bool) (b : Layer α) :
    Layer α × Bool :=
  if bCheckFeatureThreshold ∧ MAX_THRESHOLD < b.m_apoFeatures.length then
    ({ b with m_bHasWarnedTooManyFeatures := true }, false)
  else
    ({ b with m_apoFeatures := b.m_apoFeatures ++ [poFeature] }, true)

/-- Repeated appends with threshold checking, starting from a given buffer. -/
def appendFold (xs : List α) (b : Layer α) : Layer α :=
  xs.foldl (fun acc x => (addToArray x true acc).1) b

/-- Repeated appends with threshold checking, starting from a fresh buffer. -/
def appendAll (xs : List α) : Layer α := appendFold xs (emptyLayer α)

/-- n consecutive appends of the unit feature into a fresh buffer,
with threshold checking enabled. -/
def appendN : Nat → Layer Unit
  | 0 => emptyLayer Unit
  | n + 1 => (addToArray () true (appendN n)).1

/-- The delivery step at the end of OGROSMLayer::MyGetNextFeature
(the takeNext operation of the spec): move the feature at the cursor out,
advance the cursor, and when the cursor reaches the vector size clear the
vector and reset the cursor to 0. -/
def takeNext (b : Layer α) : Option α × Layer α :=
  match b.m_apoFeatures.get? b.m_nFeatureArrayIndex with
  | none => (none, b)
  | some f =>
    if b.m_nFeatureArrayIndex + 1 = b.m_apoFeatures.length then
      (some f, { b with m_apoFeatures := [], m_nFeatureArrayIndex := 0 })
    else
      (some f, { b with m_nFeatureArrayIndex := b.m_nFeatureArrayIndex + 1 })

/-- Repeated takeNext, fuelled; returns the delivered features in delivery
order together with the final buffer state. -/
def drainAux : Nat → Layer α → List α × Layer α
  | 0, b => ([], b)
  | fuel + 1, b =>
    match takeNext b with
    | (none, _) => ([], b)
    | (some f, b2) =>
      let r := drainAux fuel b2
      (f :: r.1, r.2)

/-- Drain the whole pending part of a buffer through takeNext. -/
def drain (b : Layer α) : List α × Layer α :=
  drainAux (b.m_apoFeatures.length - b.m_nFeatureArrayIndex) b

/-- Load a list of features into a fresh buffer through AddToArray with
threshold checking disabled (pure insertion). -/
def loadAll (xs : List α) : Layer α :=
  xs.foldl (fun acc x => (addToArray x false acc).1) (emptyLayer α)

/-- Datasource state seen by MyGetNextFeature: the layer buffers
(m_apoLayers), the current layer (GetCurrentLayer, as an index) and the
interleaved-reading flag. -/
structure OSMDataSource (α : Type) where
  m_apoLayers : List (Layer α)
  m_poCurrentLayer : Option Nat
  m_bInterleavedReading : Bool
deriving DecidableEq, Repr

/-- Buffer of the layer at a given index (layers are only ever addressed
with in-range indices). -/
def layerAt (ds : OSMDataSource α) (i : Nat) : Layer α :=
  ds.m_apoLayers.getD i (emptyLayer α)

/-- Replace the buffer of the layer at a given index. -/
def setLayerAt (ds : OSMDataSource α) (i : Nat) (b : Layer α) :
    OSMDataSource α :=
  { ds with m_apoLayers := ds.m_apoLayers.set i b }

/-- The scan of MyGetNextFeature over all layers for one, other than the
requesting layer, whose buffer size strictly exceeds SWITCH_THRESHOLD;
returns the first such index. -/
def findSwitchLayer (ds : OSMDataSource α) (i : Nat) : Option Nat :=
  (List.range ds.m_apoLayers.length).find?
    (fun k => (k != i) && decide (SWITCH_THRESHOLD < (layerAt ds k).m_apoFeatures.length))

/-- The scan of MyGetNextFeature over all layers for one, other than the
requesting layer, whose buffer is non-empty; returns the first such index. -/
def findNonEmptyLayer (ds : OSMDataSource α) (i : Nat) : Option Nat :=
  (List.range ds.m_apoLayers.length).find?
    (fun k => (k != i) && !(layerAt ds k).m_apoFeatures.isEmpty)

/-- Deliver the next pending feature of layer i (the tail of
MyGetNextFeature, compare takeNext). -/
def deliverFrom (ds : OSMDataSource α) (i : Nat) :
    Option α × OSMDataSource α :=
  let r := takeNext (layerAt ds i)
  (r.1, setLayerAt ds i r.2)

/-- The ParseNextChunk loop of the non-interleaved branch of
MyGetNextFeature, fuelled because the chunk driver is external: parse
returns the updated datasource and the continuation flag bRet. -/
def normalModeLoop (parse : OSMDataSource α → OSMDataSource α × Bool) :
    Nat → OSMDataSource α → Nat → Option α × Option Nat × OSMDataSource α
  | 0, ds, _ => (none, ds.m_poCurrentLayer, ds)
  | fuel + 1, ds, i =>
    let p := parse ds
    if !(layerAt p.1 i).m_apoFeatures.isEmpty then
      let d := deliverFrom p.1 i
      (d.1, p.1.m_poCurrentLayer, d.2)
    else if p.2 = false then (none, p.1.m_poCurrentLayer, p.1)
    else normalModeLoop parse fuel p.1 i

/-- OGROSMLayer::MyGetNextFeature for the layer at index i. The external
chunk driver ParseNextChunk is passed in as parse (it may append features
to any layer and reports whether more data remains); fuel bounds only the
non-interleaved retry loop. Returns the delivered feature (if any), the
new current layer (ppoNewCurLayer) and the resulting datasource state. -/
def myGetNextFeature (parse : OSMDataSource α → OSMDataSource α × Bool)
    (fuel : Nat) (ds : OSMDataSource α) (i : Nat) :
    Option α × Option Nat × OSMDataSource α :=
  if (layerAt ds i).m_apoFeatures.isEmpty then
    if ds.m_bInterleavedReading then
      if ds.m_poCurrentLayer ≠ none ∧ ds.m_poCurrentLayer ≠ some i then
        (none, ds.m_poCurrentLayer, ds)
      else
        match findSwitchLayer ds i with
        | some k => (none, some k, ds)
        | none =>
          let p := parse ds
          if (layerAt p.1 i).m_apoFeatures.isEmpty then
            match findNonEmptyLayer p.1 i with
            | some k => (none, some k, p.1)
            | none => (none, none, p.1)
          else
            let d := deliverFrom p.1 i
            (d.1, some i, d.2)
    else
      normalModeLoop parse fuel ds i
  else
    let d := deliverFrom ds i
    (d.1, ds.m_poCurrentLayer, d.2)

/-- Hex digit (uppercase) as produced by the %X format. -/
def hexDigit (n : Nat) : Char :=
  "0123456789ABCDEF".toList.getD n '0'

/-- Four hex digits as produced by the %04X format (values below 0x10000). -/
def hex4 (n : Nat) : List Char :=
  [hexDigit (n / 4096 % 16), hexDigit (n / 256 % 16),
   hexDigit (n / 16 % 16), hexDigit (n % 16)]

/-- OGROSMEscapeStringHSTORE on the character list: double-quote wrap,
escaping only the quote and backslash characters with a backslash. -/
def escapeHSTOREChars (l : List Char) : List Char :=
  l.foldr (fun c acc => if c = '"' ∨ c = '\\' then '\\' :: c :: acc else c :: acc) []

/-- OGROSMEscapeStringHSTORE. -/
def ogrosmEscapeStringHSTORE (s : String) : String :=
  ⟨'"' :: (escapeHSTOREChars s.toList ++ ['"'])⟩

/-- One character of OGROSMEscapeStringJSON. -/
def escapeJSONChar (c : Char) : List Char :=
  if c = '"' then ['\\', '"']
  else if c = '\\' then ['\\', '\\']
  else if c = '\n' then ['\\', 'n']
  else if c = '\r' then ['\\', 'r']
  else if c = '\t' then ['\\', 't']
  else if c.toNat < 32 then '\\' :: 'u' :: hex4 c.toNat
  else [c]

/-- OGROSMEscapeStringJSON. -/
def ogrosmEscapeStringJSON (s : String) : String :=
  ⟨'"' :: (s.toList.foldr (fun c acc => escapeJSONChar c ++ acc) ['"'])⟩

/-- GetValueOfTag: value of the first tag whose key equals the searched
key, none when absent. -/
def getValueOfTag (pszKeyToSearch : String) (tags : List (String × String)) :
    Option String :=
  (tags.find? (fun t => t.1 == pszKeyToSearch)).map (fun t => t.2)

/-- The portion of a key up to and including its first colon, as computed
by the strchr plus in-place truncation of AddInOtherOrAllTags; none when
the key has no colon. -/
def keyColonHead : List Char → Option (List Char)
  | [] => none
  | c :: rest =>
    if c = ':' then some [':'] else (keyColonHead rest).map (fun l => c :: l)

/-- OGROSMLayer::AddInOtherOrAllTags: a tag key belongs in the leftover
aggregate unless the key itself is in the ignore set, or the key has a
colon and its truncation just after the first colon is in the ignore set. -/
def addInOtherOrAllTags (ignoreKeys : List String) (pszK : String) : Bool :=
  if ignoreKeys.contains pszK then false
  else
    match keyColonHead pszK.toList with
    | some l => !(ignoreKeys.contains ⟨l⟩)
    | none => true

/-- Per-layer configuration used by the tag loop of SetFieldsFromTags:
the field-name-to-index map, the special field indices (a C++ index of -1
is modelled as none) and the datasource-wide serialization flag. -/
structure TagFieldConfig where
  fieldMap : List (String × Nat)
  m_nIndexOSMId : Option Nat
  m_nIndexAllTags : Option Nat
  m_nIndexOtherTags : Option Nat
  ignoreKeys : List String
  tagsAsHSTORE : Bool
deriving DecidableEq, Repr

/-- GetFieldIndex through m_oMapFieldNameToIndex (exact key lookup). -/
def getFieldIndexCfg (cfg : TagFieldConfig) (pszName : String) : Option Nat :=
  (cfg.fieldMap.find? (fun t => t.1 == pszName)).map (fun t => t.2)

/-- Append one escaped tag to the leftover-tag aggregate buffer
(m_osAllTagsBuffer) in the serialization selected by the datasource. -/
def appendTagToBuffer (hstore : Bool) (buf : String) (k v : String) : String :=
  if hstore then
    (if buf ≠ "" then buf ++ "," else buf) ++
      ogrosmEscapeStringHSTORE k ++ "=>" ++ ogrosmEscapeStringHSTORE v
  else
    (if buf ≠ "" then buf ++ "," else "\x7b") ++
      ogrosmEscapeStringJSON k ++ ":" ++ ogrosmEscapeStringJSON v

/-- One iteration of the tag loop of SetFieldsFromTags: set the matching
declared field (when it exists and is not the osm_id field), then decide
whether the tag joins the aggregate buffer. A tag stored into a declared
field skips the aggregate unless the all_tags field is declared. -/
def processTag (cfg : TagFieldConfig) (st : List (Option String) × String)
    (kv : String × String) : List (Option String) × String :=
  let rec1 :=
    match getFieldIndexCfg cfg kv.1 with
    | some i =>
      if some i ≠ cfg.m_nIndexOSMId then st.1.set i (some kv.2) else st.1
    | none => st.1
  let matchedNonId : Bool :=
    match getFieldIndexCfg cfg kv.1 with
    | some i => decide (some i ≠ cfg.m_nIndexOSMId)
    | none => false
  if matchedNonId ∧ cfg.m_nIndexAllTags = none then (rec1, st.2)
  else if (cfg.m_nIndexAllTags ≠ none ∨ cfg.m_nIndexOtherTags ≠ none) ∧
      addInOtherOrAllTags cfg.ignoreKeys kv.1 then
    (rec1, appendTagToBuffer cfg.tagsAsHSTORE st.2 kv.1 kv.2)
  else (rec1, st.2)

/-- The flush after the tag loop of SetFieldsFromTags: when the aggregate
buffer is non-empty, close the JSON object when applicable and store the
buffer into the all_tags field if declared, else into the other_tags field
(a SetField on an undeclared index is a no-op). -/
def flushAllTags (cfg : TagFieldConfig) (st : List (Option String) × String) :
    List (Option String) :=
  if st.2 = "" then st.1
  else
    let buf := if cfg.tagsAsHSTORE then st.2 else st.2 ++ "\x7d"
    match cfg.m_nIndexAllTags with
    | some i => st.1.set i (some buf)
    | none =>
      match cfg.m_nIndexOtherTags with
      | some i => st.1.set i (some buf)
      | none => st.1

/-- The tag-projection part of SetFieldsFromTags: fold the tag loop over
the tag sequence starting from the record as left by the id and metadata
section, then flush the aggregate buffer. -/
def setFieldsFromTagsModel (cfg : TagFieldConfig) (rec0 : List (Option String))
    (tags : List (String × String)) : List (Option String) :=
  flushAllTags cfg (tags.foldl (processTag cfg) (rec0, ""))

/-- Accumulating decimal digit scan of atoi. -/
def atoiDigits : List Char → Nat → Nat
  | [], acc => acc
  | c :: rest, acc =>
    if c.isDigit then atoiDigits rest (acc * 10 + (c.toNat - 48)) else acc

/-- The isspace set skipped by the C atoi. -/
def isSpaceChar (c : Char) : Bool :=
  c = ' ' ∨ c = '\t' ∨ c = '\n' ∨ c = '\x0b' ∨ c = '\x0c' ∨ c = '\r'

/-- The C atoi applied to the layer tag value: skip leading whitespace,
an optional sign, then the leading run of decimal digits (0 when there is
none). -/
def atoi (s : String) : Int :=
  match s.toList.dropWhile isSpaceChar with
  | '-' :: rest => -(atoiDigits rest 0 : Int)
  | '+' :: rest => (atoiDigits rest 0 : Int)
  | l => (atoiDigits l 0 : Int)

/-- State of one of the five bound slots of the hardcoded fast path: the
corresponding anIndexToBind entry is -1 (field not declared on the layer),
or the field is declared but the record slot fails IsFieldSetAndNotNull,
or the field is declared and set with a string value. -/
inductive FieldState where
  | notDeclared : FieldState
  | declaredUnset : FieldState
  | declaredSet : String → FieldState
deriving DecidableEq, Repr

/-- How the fast path of SetFieldsFromTags obtains one input value: from
the declared field when set; null when the field is declared but unset;
from the first raw tag with the exact key only when no field is declared. -/
def readFastPathInput (fs : FieldState) (key : String)
    (tags : List (String × String)) : Option String :=
  match fs with
  | .declaredSet v => some v
  | .declaredUnset => none
  | .notDeclared => getValueOfTag key tags

/-- The five bound slots of the hardcoded z_order fast path. -/
structure FastPathInputs where
  highway : FieldState
  bridge : FieldState
  tunnel : FieldState
  railway : FieldState
  layer : FieldState
deriving DecidableEq, Repr

/-- The hardcoded z_order fast path of SetFieldsFromTags (bHardcodedZOrder
branch), with its sequential accumulation of nZOrder. -/
def fastPathZOrder (inp : FastPathInputs) (tags : List (String × String)) :
    Int :=
  let z0 : Int := 0
  let z1 :=
    match readFastPathInput inp.highway "highway" tags with
    | none => z0
    | some v =>
      if v = "minor" ∨ v = "road" ∨ v = "unclassified" ∨ v = "residential" then
        z0 + 3
      else if v = "tertiary_link" ∨ v = "tertiary" then z0 + 4
      else if v = "secondary_link" ∨ v = "secondary" then z0 + 6
      else if v = "primary_link" ∨ v = "primary" then z0 + 7
      else if v = "trunk_link" ∨ v = "trunk" then z0 + 8
      else if v = "motorway_link" ∨ v = "motorway" then z0 + 9
      else z0
  let z2 :=
    match readFastPathInput inp.bridge "bridge" tags with
    | none => z1
    | some v => if v = "yes" ∨ v = "true" ∨ v = "1" then z1 + 10 else z1
  let z3 :=
    match readFastPathInput inp.tunnel "tunnel" tags with
    | none => z2
    | some v => if v = "yes" ∨ v = "true" ∨ v = "1" then z2 - 10 else z2
  let z4 :=
    match readFastPathInput inp.railway "railway" tags with
    | none => z3
    | some _ => z3 + 5
  let z5 :=
    match readFastPathInput inp.layer "layer" tags with
    | none => z4
    | some v => z4 + 10 * atoi v
  z5

/-- Base score table of the z_order formula as stated by the spec. -/
def highwayBaseScore (v : String) : Int :=
  if v ∈ ["minor", "road", "unclassified", "residential"] then 3
  else if v ∈ ["tertiary_link", "tertiary"] then 4
  else if v ∈ ["secondary_link", "secondary"] then 6
  else if v ∈ ["primary_link", "primary"] then 7
  else if v ∈ ["trunk_link", "trunk"] then 8
  else if v ∈ ["motorway_link", "motorway"] then 9
  else 0

/-- Truthiness test of the z_order formula for bridge and tunnel values. -/
def truthyYes (v : String) : Bool := v ∈ ["yes", "true", "1"]

/-- The z_order formula as an additive expression over the five input
values: base highway score, plus 10 for a truthy bridge, minus 10 for a
truthy tunnel, plus 5 when railway is present, plus 10 times the integer
parse of the layer value. -/
def zOrderFormula (h b t r l : Option String) : Int :=
  (match h with | some v => highwayBaseScore v | none => 0)
  + (match b with | some v => if truthyYes v then 10 else 0 | none => 0)
  - (match t with | some v => if truthyYes v then 10 else 0 | none => 0)
  + (match r with | some _ => 5 | none => 0)
  + (match l with | some v => 10 * atoi v | none => 0)

/-- The input reading exactly as worded by the claim: from the bound field
when declared and set, else from the first raw tag with that exact key.
This differs from readFastPathInput on a declared-but-unset field. -/
def claimReadInput (fs : FieldState) (key : String)
    (tags : List (String × String)) : Option String :=
  match fs with
  | .declaredSet v => some v
  | _ => getValueOfTag key tags

/-- The fast-path value the claim asserts: the formula evaluated on the
inputs as read by claimReadInput. -/
def claimedFastPathZOrder (inp : FastPathInputs)
    (tags : List (String × String)) : Int :=
  zOrderFormula (claimReadInput inp.highway "highway" tags)
    (claimReadInput inp.bridge "bridge" tags)
    (claimReadInput inp.tunnel "tunnel" tags)
    (claimReadInput inp.railway "railway" tags)
    (claimReadInput inp.layer "layer" tags)

/-- Negation of the closing-bracket test used by the placeholder scan. -/
def notCloseBracket (d : Char) : Bool := d != ']'

/-- The placeholder-extraction loop of AddComputedAttribute over the
characters of the expression. The argument prev is the character just
before the current position (none at position 0). An opening bracket is
treated as a placeholder only when its position is strictly positive and
the preceding character is not a backslash; its attribute name runs to the
first closing bracket, the whole bracketed group is replaced by a question
mark, and the scan resumes after it. When no closing bracket follows, the
loop breaks and the remainder is kept as-is. -/
def extractPlaceholders : Option Char → List Char → List Char × List (List Char)
  | _, [] => ([], [])
  | prev, c :: rest =>
    if c = '[' ∧ prev ≠ none ∧ prev ≠ some '\\' then
      if rest.dropWhile notCloseBracket = [] then (c :: rest, [])
      else
        let attr := rest.takeWhile notCloseBracket
        let r := extractPlaceholders (some '?') (rest.dropWhile notCloseBracket).tail
        ('?' :: r.1, attr :: r.2)
    else
      let r := extractPlaceholders (some c) rest
      (c :: r.1, r.2)
termination_by _ l => l.length
decreasing_by
  all_goals simp_wf
  all_goals
    have h1 : (rest.dropWhile notCloseBracket).length ≤ rest.length :=
      (List.dropWhile_sublist notCloseBracket).length_le
    omega

/-- The backslash-removal loop of AddComputedAttribute: each backslash is
removed unless it stands at the very last position of the string. -/
def removeBackslashes : List Char → List Char
  | [] => []
  | ['\\'] => ['\\']
  | '\\' :: c :: rest => removeBackslashes (c :: rest)
  | c :: rest => c :: removeBackslashes rest

/-- The character standing just before the scan position after consuming a
chunk of characters: the last of the chunk, or the incoming one when the
chunk is empty. -/
def prevAfter (prev : Option Char) (l : List Char) : Option Char :=
  match l.getLast? with
  | some c => some c
  | none => prev

/-- The whole declaration-time rewrite of a computed-attribute expression:
placeholder extraction followed by backslash removal, returning the final
query text and the ordered bound-attribute names. -/
def rewriteComputedSQL (sql : String) : String × List String :=
  let r := extractPlaceholders none sql.toList
  (⟨removeBackslashes r.1⟩, r.2.map (fun l => (⟨l⟩ : String)))

/-- The OGR field types bound by the computed-attribute engine. -/
inductive OGRFieldType where
  | OFTInteger : OGRFieldType
  | OFTInteger64 : OGRFieldType
  | OFTReal : OGRFieldType
  | OFTString : OGRFieldType
deriving DecidableEq, Repr

/-- One OGROSMComputedAttribute as filled in by AddComputedAttribute (the
sqlite statement handle itself is modelled by the rewritten query text; an
anIndexToBind entry of -1 is modelled as none). -/
structure OGROSMComputedAttribute where
  osName : String
  eType : OGRFieldType
  nIndex : Nat
  osSQL : String
  aosAttrToBind : List String
  anIndexToBind : List (Option Nat)
deriving DecidableEq, Repr

/-- The layer state touched by AddComputedAttribute: the ordered field
names of m_poFeatureDefn, the computed-attribute list, and whether the
datasource-wide sqlite handle m_hDBForComputedAttributes is open. -/
structure LayerDefState where
  fieldNames : List String
  m_oComputedAttributes : List OGROSMComputedAttribute
  dbOpen : Bool
deriving DecidableEq, Repr

/-- OGRFeatureDefn::GetFieldIndex over the ordered field names. -/
def fieldIndexOf (names : List String) (a : String) : Option Nat :=
  names.findIdx? (fun n => n == a)

/-- OGROSMLayer::AddComputedAttribute. The two external sqlite outcomes
are passed in as oracles: openOk is whether sqlite3_open_v2 on the lazily
created in-memory store succeeds, prepareOk is whether sqlite3_prepare_v2
accepts the rewritten query text. Returns the updated state and whether
the attribute was added; on any failure a recoverable error is reported
and the function returns with the schema and attribute list untouched. -/
def addComputedAttribute (openOk : Bool) (prepareOk : String → Bool)
    (pszName : String) (eType : OGRFieldType) (pszSQL : String)
    (st : LayerDefState) : LayerDefState × Bool :=
  if st.dbOpen = false ∧ openOk = false then (st, false)
  else
    let st1 := { st with dbOpen := true }
    if (fieldIndexOf st.fieldNames pszName).isSome then (st1, false)
    else
      let rw := rewriteComputedSQL pszSQL
      if prepareOk rw.1 = false then (st1, false)
      else
        ({ st1 with
            fieldNames := st.fieldNames ++ [pszName],
            m_oComputedAttributes := st.m_oComputedAttributes ++
              [{ osName := pszName, eType := eType,
                 nIndex := st.fieldNames.length, osSQL := pszSQL,
                 aosAttrToBind := rw.2,
                 anIndexToBind := rw.2.map (fieldIndexOf st.fieldNames) }] },
          true)

/-- A value produced by the embedded query engine, dispatched by its
native sqlite column type; the float payload is an abstract carrier F
since the code only passes doubles through. -/
inductive SQLiteVal (F : Type) where
  | vInteger : Int → SQLiteVal F
  | vFloat : F → SQLiteVal F
  | vText : String → SQLiteVal F
  | vNull : SQLiteVal F
  | vBlob : SQLiteVal F
deriving DecidableEq, Repr

/-- A value stored into a record field by the general path (SetField with
a GIntBig, a double, or a text). -/
inductive OGRFieldValue (F : Type) where
  | fvInteger : Int → OGRFieldValue F
  | fvDouble : F → OGRFieldValue F
  | fvText : String → OGRFieldValue F
deriving DecidableEq, Repr

/-- A prepared statement of the embedded engine: its positional bindings
and whether a step has been executed since the last reset. -/
structure PreparedStmt (F : Type) where
  bindings : List (Option (SQLiteVal F))
  busy : Bool
deriving DecidableEq, Repr

/-- The execute-store-reset tail of the general computed-attribute path
(after binding): step the prepared statement (the engine outcome is the
oracle step, giving the first row of column 0 if any, and the result
column count); when a row is produced and there is exactly one result
column, store the value into the target field dispatched by its native
type; in every other case leave the record untouched; finally reset the
statement. -/
def evalComputedStores (step : List (Option (SQLiteVal F)) → Option (SQLiteVal F) × Nat)
    (stmt : PreparedStmt F) (rec : List (Option (OGRFieldValue F)))
    (nIndex : Nat) : List (Option (OGRFieldValue F)) × PreparedStmt F :=
  let r := step stmt.bindings
  let stmtStepped := { stmt with busy := true }
  let rec2 :=
    match r.1 with
    | some v =>
      if r.2 = 1 then
        match v with
        | .vInteger i => rec.set nIndex (some (.fvInteger i))
        | .vFloat x => rec.set nIndex (some (.fvDouble x))
        | .vText s => rec.set nIndex (some (.fvText s))
        | .vNull => rec
        | .vBlob => rec
      else rec
    | none => rec
  (rec2, { stmtStepped with busy := false })

/-- The namespace head of a key as worded by the spec: the prefix of the
key up to and including its first colon. -/
def namespaceHead (k : String) : String :=
  ⟨k.toList.takeWhile (fun c => c ≠ ':') ++ [':']⟩

/-- The value a declared field holds after the tag loop, as an abstract
fold: the value of the last tag whose key maps to the given index (and is
not the osm_id index), or the incoming value when no tag maps there. -/
def lastTagValueFor (cfg : TagFieldConfig) (i : Nat) (init : Option String)
    (tags : List (String × String)) : Option String :=
  tags.foldl
    (fun acc kv =>
      if getFieldIndexCfg cfg kv.1 = some i ∧ some i ≠ cfg.m_nIndexOSMId then
        some kv.2
      else acc)
    init

/-! Theorems. -/

theorem addToArray_of_le (x : α) (b : Layer α)
    (h : b.m_apoFeatures.length ≤ MAX_THRESHOLD) :
    addToArray x true b =
      ({ b with m_apoFeatures := b.m_apoFeatures ++ [x] }, true) := by
  simp [addToArray]
  omega

theorem addToArray_of_gt (x : α) (b : Layer α)
    (h : MAX_THRESHOLD < b.m_apoFeatures.length) :
    addToArray x true b =
      ({ b with m_bHasWarnedTooManyFeatures := true }, false) := by
  simp [addToArray, h]

theorem appendFold_length_le (xs : List α) :
    ∀ b : Layer α, b.m_apoFeatures.length ≤ MAX_THRESHOLD + 1 →
      (appendFold xs b).m_apoFeatures.length ≤ MAX_THRESHOLD + 1 := by
  induction xs with
  | nil => intro b h; simpa [appendFold] using h
  | cons x xs ih =>
    intro b h
    have hstep : appendFold (x :: xs) b = appendFold xs (addToArray x true b).1 := by
      simp [appendFold]
    rw [hstep]
    by_cases hgt : MAX_THRESHOLD < b.m_apoFeatures.length
    · rw [addToArray_of_gt x b hgt]
      exact ih _ h
    · rw [addToArray_of_le x b (by omega)]
      apply ih
      simp
      omega

theorem appendN_length (n : Nat) :
    (appendN n).m_apoFeatures.length = min n (MAX_THRESHOLD + 1) := by
  induction n with
  | zero => simp [appendN, emptyLayer]
  | succ n ih =>
    show ((addToArray () true (appendN n)).1).m_apoFeatures.length = _
    by_cases hle : (appendN n).m_apoFeatures.length ≤ MAX_THRESHOLD
    · rw [addToArray_of_le _ _ hle]
      simp at hle ⊢
      omega
    · rw [addToArray_of_gt _ _ (by omega)]
      simp at hle ⊢
      omega

/-- C1, counterexample: the claim says the buffer size never exceeds
MAX_THRESHOLD under threshold-checked appends, but AddToArray only rejects
once the size already strictly exceeds the cap, so a sequence of
MAX_THRESHOLD + 1 appends into a fresh buffer brings the size to
MAX_THRESHOLD + 1, strictly above MAX_THRESHOLD. -/
theorem c1_counterexample :
    MAX_THRESHOLD < (appendN (MAX_THRESHOLD + 1)).m_apoFeatures.length := by
  rw [appendN_length, Nat.min_self]
  omega

/-- C1, amended: for every sequence of threshold-checked appends the
buffer size never exceeds MAX_THRESHOLD + 1; once the size strictly
exceeds MAX_THRESHOLD, an append returns failure and leaves the buffer
contents unchanged. -/
theorem c1_amended (xs : List α) (b : Layer α) (x : α)
    (h : MAX_THRESHOLD < b.m_apoFeatures.length) :
    (appendAll xs).m_apoFeatures.length ≤ MAX_THRESHOLD + 1 ∧
    (addToArray x true b).2 = false ∧
    (addToArray x true b).1.m_apoFeatures = b.m_apoFeatures := by
  refine ⟨?_, ?_, ?_⟩
  · exact appendFold_length_le xs (emptyLayer α) (by simp [emptyLayer])
  · rw [addToArray_of_gt x b h]
  · rw [addToArray_of_gt x b h]

/-- C1 witness: the amended theorem applied to one append into a fresh
buffer and to a buffer holding MAX_THRESHOLD + 1 features. -/
theorem c1_amended_witness :
    (appendAll [()]).m_apoFeatures.length ≤ MAX_THRESHOLD + 1 ∧
    (addToArray () true ⟨List.replicate (MAX_THRESHOLD + 1) (), 0, false⟩).2 = false ∧
    (addToArray () true ⟨List.replicate (MAX_THRESHOLD + 1) (), 0, false⟩).1.m_apoFeatures
      = List.replicate (MAX_THRESHOLD + 1) () :=
  c1_amended [()] ⟨List.replicate (MAX_THRESHOLD + 1) (), 0, false⟩ ()
    (by simp only [List.length_replicate]; omega)


theorem loadAll_eq (xs : List α) : loadAll xs = ⟨xs, 0, false⟩ := by
  have haux : ∀ (ys : List α) (b : Layer α),
      ys.foldl (fun acc x => (addToArray x false acc).1) b =
        { b with m_apoFeatures := b.m_apoFeatures ++ ys } := by
    intro ys
    induction ys with
    | nil => intro b; simp
    | cons y ys ih =>
      intro b
      rw [List.foldl_cons, ih]
      simp [addToArray]
  rw [loadAll, haux]
  simp [emptyLayer]

theorem drainAux_spec :
    ∀ (fuel : Nat) (b : Layer α),
      b.m_nFeatureArrayIndex + fuel = b.m_apoFeatures.length →
      drainAux fuel b =
        (b.m_apoFeatures.drop b.m_nFeatureArrayIndex,
         if fuel = 0 then b else ⟨[], 0, b.m_bHasWarnedTooManyFeatures⟩) := by
  intro fuel
  induction fuel with
  | zero =>
    intro b h
    have hle : b.m_apoFeatures.length ≤ b.m_nFeatureArrayIndex := by omega
    rw [drainAux]
    simp [List.drop_of_length_le hle]
  | succ fuel ih =>
    intro b h
    have hlt : b.m_nFeatureArrayIndex < b.m_apoFeatures.length := by omega
    have hget : b.m_apoFeatures.get? b.m_nFeatureArrayIndex =
        some (b.m_apoFeatures.get ⟨b.m_nFeatureArrayIndex, hlt⟩) :=
      List.get?_eq_get hlt
    have hdrop : b.m_apoFeatures.drop b.m_nFeatureArrayIndex =
        b.m_apoFeatures.get ⟨b.m_nFeatureArrayIndex, hlt⟩ ::
          b.m_apoFeatures.drop (b.m_nFeatureArrayIndex + 1) :=
      List.drop_eq_getElem_cons hlt
    have htn : takeNext b = (some (b.m_apoFeatures.get ⟨b.m_nFeatureArrayIndex, hlt⟩),
        if b.m_nFeatureArrayIndex + 1 = b.m_apoFeatures.length
        then { b with m_apoFeatures := [], m_nFeatureArrayIndex := 0 }
        else { b with m_nFeatureArrayIndex := b.m_nFeatureArrayIndex + 1 }) := by
      simp only [takeNext, hget]
      by_cases hlast : b.m_nFeatureArrayIndex + 1 = b.m_apoFeatures.length
      · simp [hlast]
      · simp [hlast]
    have hunf : drainAux (fuel + 1) b =
        (match takeNext b with
          | (none, _) => ([], b)
          | (some f, b2) =>
            let r := drainAux fuel b2
            (f :: r.1, r.2)) := by
      simp only [drainAux]
    rw [hunf, htn]
    by_cases hlast : b.m_nFeatureArrayIndex + 1 = b.m_apoFeatures.length
    · have hfuel : fuel = 0 := by omega
      subst hfuel
      simp only [if_pos hlast]
      rw [drainAux]
      simp only [hdrop]
      rw [List.drop_of_length_le (le_of_eq hlast.symm), if_neg (Nat.succ_ne_zero 0)]
    · simp only [if_neg hlast]
      have hfuel : fuel ≠ 0 := by omega
      have hrec := ih { b with m_nFeatureArrayIndex := b.m_nFeatureArrayIndex + 1 }
        (by simp only; omega)
      simp only at hrec
      rw [if_neg hfuel] at hrec
      rw [hrec, hdrop, if_neg (Nat.succ_ne_zero fuel)]

/-- C7: takeNext removes and returns buffered records in FIFO insertion
order; draining the buffer to empty resets the internal cursor and vector
to the state of a freshly created buffer, so a subsequent append followed
by takeNext behaves identically to the same operations on a freshly
created buffer. -/
theorem c7_takeNext_fifo_reset (xs : List α) :
    (drain (loadAll xs)).1 = xs ∧
    (drain (loadAll xs)).2 = emptyLayer α ∧
    ∀ x : α, takeNext ((addToArray x true (drain (loadAll xs)).2).1) =
      takeNext ((addToArray x true (emptyLayer α)).1) := by
  have hdrain : drain (loadAll xs) = (xs, emptyLayer α) := by
    rw [loadAll_eq]
    show drainAux (xs.length - 0) ⟨xs, 0, false⟩ = (xs, emptyLayer α)
    rw [Nat.sub_zero]
    have h1 := drainAux_spec xs.length ⟨xs, 0, false⟩
      (show 0 + xs.length = xs.length by omega)
    rw [h1]
    by_cases hnil : xs.length = 0
    · rw [if_pos hnil]
      have hx : xs = [] := List.eq_nil_of_length_eq_zero hnil
      subst hx
      rfl
    · rw [if_neg hnil]
      simp only [List.drop_zero]
      rfl
  exact ⟨by rw [hdrain], by rw [hdrain], fun x => by rw [hdrain]⟩

theorem findSwitchLayer_spec (ds : OSMDataSource α) (i : Nat)
    (hex : ∃ k, k < ds.m_apoLayers.length ∧ k ≠ i ∧
      SWITCH_THRESHOLD < (layerAt ds k).m_apoFeatures.length) :
    ∃ j, findSwitchLayer ds i = some j ∧ j ≠ i ∧
      SWITCH_THRESHOLD < (layerAt ds j).m_apoFeatures.length := by
  obtain ⟨k, hk, hki, hks⟩ := hex
  have hne : findSwitchLayer ds i ≠ none := by
    intro h0
    have hall := List.find?_eq_none.mp h0 k (List.mem_range.mpr hk)
    simp only [Bool.and_eq_true, bne_iff_ne, decide_eq_true_eq] at hall
    exact hall ⟨hki, hks⟩
  obtain ⟨j, hj⟩ := Option.ne_none_iff_exists'.mp hne
  have hpred := List.find?_some hj
  simp only [Bool.and_eq_true, bne_iff_ne, decide_eq_true_eq] at hpred
  exact ⟨j, hj, hpred.1, hpred.2⟩

/-- C3: in interleaved mode, when the requesting layer is the current
layer, its buffer is empty, and some other layer's buffer size exceeds
SWITCH_THRESHOLD, MyGetNextFeature redirects current-ness to such a layer
and returns no record, leaving the datasource state untouched, whatever
the external chunk driver would do (no chunk is pulled from the stream). -/
theorem c3_switch_redirect (parse : OSMDataSource α → OSMDataSource α × Bool)
    (fuel : Nat) (ds : OSMDataSource α) (i : Nat)
    (hint : ds.m_bInterleavedReading = true)
    (hemp : (layerAt ds i).m_apoFeatures = [])
    (hcur : ds.m_poCurrentLayer = some i)
    (hex : ∃ k, k < ds.m_apoLayers.length ∧ k ≠ i ∧
      SWITCH_THRESHOLD < (layerAt ds k).m_apoFeatures.length) :
    ∃ j, j ≠ i ∧ SWITCH_THRESHOLD < (layerAt ds j).m_apoFeatures.length ∧
      myGetNextFeature parse fuel ds i = (none, some j, ds) := by
  obtain ⟨j, hj, hji, hjs⟩ := findSwitchLayer_spec ds i hex
  refine ⟨j, hji, hjs, ?_⟩
  rw [myGetNextFeature, hemp, hint]
  simp only [List.isEmpty_nil, if_true, hcur]
  have hcond : ¬((some i : Option Nat) ≠ none ∧ (some i : Option Nat) ≠ some i) := by
    simp
  rw [if_neg hcond, hj]

/-- C3 witness: two layers, layer 0 current with an empty buffer, layer 1
holding SWITCH_THRESHOLD + 1 features; the scheduler redirects to layer 1
without touching the state. -/
theorem c3_switch_redirect_witness :
    ∃ j, j ≠ 0 ∧
      SWITCH_THRESHOLD <
        (layerAt
          (⟨[⟨[], 0, false⟩, ⟨List.replicate (SWITCH_THRESHOLD + 1) (), 0, false⟩],
            some 0, true⟩ : OSMDataSource Unit) j).m_apoFeatures.length ∧
      myGetNextFeature (fun d => (d, false)) 0
        (⟨[⟨[], 0, false⟩, ⟨List.replicate (SWITCH_THRESHOLD + 1) (), 0, false⟩],
          some 0, true⟩ : OSMDataSource Unit) 0 =
      (none, some j,
        (⟨[⟨[], 0, false⟩, ⟨List.replicate (SWITCH_THRESHOLD + 1) (), 0, false⟩],
          some 0, true⟩ : OSMDataSource Unit)) :=
  c3_switch_redirect (fun d => (d, false)) 0 _ 0 rfl rfl rfl
    ⟨1, by decide, by decide,
      by
        show SWITCH_THRESHOLD < (List.replicate (SWITCH_THRESHOLD + 1) ()).length
        rw [List.length_replicate]
        omega⟩

theorem keyColonHead_spec (l : List Char) :
    keyColonHead l =
      if ':' ∈ l then some (l.takeWhile (fun c => c ≠ ':') ++ [':']) else none := by
  induction l with
  | nil => simp [keyColonHead]
  | cons c rest ih =>
    by_cases hc : c = ':'
    · subst hc
      rw [keyColonHead]
      simp [List.takeWhile_cons]
    · rw [keyColonHead, if_neg hc, ih]
      by_cases hmem : ':' ∈ rest
      · rw [if_pos hmem, if_pos (List.mem_cons_of_mem c hmem)]
        simp [List.takeWhile_cons, hc]
      · rw [if_neg hmem, if_neg (by simp [hmem]; exact fun h => hc h.symm)]
        rfl

/-- C4: for a tag key that is not itself in the ignore set and contains a
colon, AddInOtherOrAllTags excludes the tag from the leftover aggregate
exactly when the prefix of the key up to and including its first colon is
in the ignore set; in particular the key ns:suffix with ns: ignored is
excluded even though ns:suffix itself is not. -/
theorem c4_namespace_rule (ign : List String) (k : String)
    (hnot : ign.contains k = false)
    (hcolon : ':' ∈ k.toList) :
    (addInOtherOrAllTags ign k = false ↔ ign.contains (namespaceHead k) = true) ∧
    addInOtherOrAllTags ["ns:"] "ns:suffix" = false := by
  constructor
  · rw [addInOtherOrAllTags, if_neg (by rw [hnot]; exact Bool.false_ne_true)]
    rw [keyColonHead_spec, if_pos hcolon]
    show (!ign.contains (namespaceHead k)) = false ↔ _
    simp
  · decide

/-- C4 witness: the theorem applied to the ignore set containing exactly
ns: and the key ns:suffix. -/
theorem c4_namespace_rule_witness :
    ((addInOtherOrAllTags ["ns:"] "ns:suffix" = false) ↔
      (["ns:"].contains (namespaceHead "ns:suffix") = true)) ∧
    addInOtherOrAllTags ["ns:"] "ns:suffix" = false :=
  c4_namespace_rule ["ns:"] "ns:suffix" (by decide) (by decide)

/-- C2, counterexample: with the highway field declared on the layer but
unset on the record, and a raw highway=motorway tag present, the code
computes 0 (a declared field suppresses the raw-tag fallback even when
unset) while the claim as worded (fall back to the raw tag whenever the
field is not both declared and set) yields 9. -/
theorem c2_counterexample :
    fastPathZOrder
        ⟨.declaredUnset, .notDeclared, .notDeclared, .notDeclared, .notDeclared⟩
        [("highway", "motorway")] ≠
      claimedFastPathZOrder
        ⟨.declaredUnset, .notDeclared, .notDeclared, .notDeclared, .notDeclared⟩
        [("highway", "motorway")] := by decide

set_option maxHeartbeats 2000000

/-- C2, amended: with each of the five inputs read from the bound field
when the field is declared (its value taken only when set, with no raw-tag
fallback for a declared-but-unset field) and from the first raw tag with
that exact key only when no field is declared, the fast path equals the
additive formula: base highway score per the table, plus 10 for a truthy
bridge, minus 10 for a truthy tunnel, plus 5 when railway is present, plus
10 times the leading-digit integer parse of the layer value; in particular
highway=motorway, bridge=yes, layer=2 yields 39. -/
theorem c2_fastpath_formula (inp : FastPathInputs) (tags : List (String × String)) :
    fastPathZOrder inp tags =
      zOrderFormula (readFastPathInput inp.highway "highway" tags)
        (readFastPathInput inp.bridge "bridge" tags)
        (readFastPathInput inp.tunnel "tunnel" tags)
        (readFastPathInput inp.railway "railway" tags)
        (readFastPathInput inp.layer "layer" tags) ∧
    fastPathZOrder
        ⟨.notDeclared, .notDeclared, .notDeclared, .notDeclared, .notDeclared⟩
        [("highway", "motorway"), ("bridge", "yes"), ("layer", "2")] = 39 := by
  constructor
  · simp only [fastPathZOrder, zOrderFormula]
    generalize readFastPathInput inp.highway "highway" tags = oh
    generalize readFastPathInput inp.bridge "bridge" tags = ob
    generalize readFastPathInput inp.tunnel "tunnel" tags = ot
    generalize readFastPathInput inp.railway "railway" tags = og
    generalize readFastPathInput inp.layer "layer" tags = ol
    cases oh <;> cases ob <;> cases ot <;> cases og <;> cases ol <;>
      simp only [highwayBaseScore, truthyYes, List.mem_cons,
        List.mem_singleton, List.not_mem_nil, or_false, decide_eq_true_eq] <;>
      first
        | ring1
        | (split_ifs <;> ring1)
  · decide

theorem getD_set_ne (l : List (Option String)) (i j : Nat) (v : Option String)
    (h : i ≠ j) : (l.set i v).getD j none = l.getD j none := by
  simp [List.getD_eq_getElem?_getD, List.getElem?_set_ne h]

theorem getD_set_self (l : List (Option String)) (i : Nat) (v : Option String)
    (h : i < l.length) : (l.set i v).getD i none = v := by
  simp [List.getD_eq_getElem?_getD, List.getElem?_set_self, h]

theorem processTag_fst (cfg : TagFieldConfig)
    (st : List (Option String) × String) (kv : String × String) :
    (processTag cfg st kv).1 =
      (match getFieldIndexCfg cfg kv.1 with
        | some j =>
          if some j ≠ cfg.m_nIndexOSMId then st.1.set j (some kv.2) else st.1
        | none => st.1) := by
  rw [processTag]
  split
  · rfl
  · split
    · rfl
    · rfl

theorem processTag_length (cfg : TagFieldConfig)
    (st : List (Option String) × String) (kv : String × String) :
    (processTag cfg st kv).1.length = st.1.length := by
  rw [processTag_fst]
  cases hidx : getFieldIndexCfg cfg kv.1 with
  | none => rfl
  | some j =>
    simp only
    split
    · rw [List.length_set]
    · rfl

theorem processTag_field (cfg : TagFieldConfig)
    (st : List (Option String) × String) (kv : String × String) (i : Nat)
    (hlen : i < st.1.length) :
    (processTag cfg st kv).1.getD i none =
      (if getFieldIndexCfg cfg kv.1 = some i ∧ some i ≠ cfg.m_nIndexOSMId then
        some kv.2
      else st.1.getD i none) := by
  rw [processTag_fst]
  cases hidx : getFieldIndexCfg cfg kv.1 with
  | none =>
    simp only
    rw [if_neg]
    intro hc
    exact Option.noConfusion hc.1
  | some j =>
    simp only
    by_cases hid : some j ≠ cfg.m_nIndexOSMId
    · rw [if_pos hid]
      by_cases hij : j = i
      · subst hij
        rw [getD_set_self _ _ _ hlen, if_pos ⟨rfl, hid⟩]
      · rw [getD_set_ne _ _ _ _ hij, if_neg]
        intro hc
        exact hij (Option.some.inj hc.1)
    · rw [if_neg hid, if_neg]
      intro hc
      refine hid ?_
      rw [Option.some.inj hc.1]
      exact hc.2

theorem tagLoop_field (cfg : TagFieldConfig) (i : Nat) :
    ∀ (tags : List (String × String)) (st : List (Option String) × String),
      i < st.1.length →
      ((tags.foldl (processTag cfg) st).1).getD i none =
        lastTagValueFor cfg i (st.1.getD i none) tags := by
  intro tags
  induction tags with
  | nil => intro st _; simp [lastTagValueFor]
  | cons kv tags ih =>
    intro st hlen
    rw [List.foldl_cons, lastTagValueFor, List.foldl_cons]
    have hlen2 : i < (processTag cfg st kv).1.length := by
      rw [processTag_length]
      exact hlen
    rw [ih (processTag cfg st kv) hlen2, processTag_field cfg st kv i hlen]
    rw [lastTagValueFor]

theorem lastTagValueFor_stays_some (cfg : TagFieldConfig) (i : Nat) :
    ∀ (tags : List (String × String)) (w : String),
      ∃ u, lastTagValueFor cfg i (some w) tags = some u := by
  intro tags
  induction tags with
  | nil => intro w; exact ⟨w, rfl⟩
  | cons kv tags ih =>
    intro w
    rw [lastTagValueFor, List.foldl_cons]
    by_cases hc : getFieldIndexCfg cfg kv.1 = some i ∧ some i ≠ cfg.m_nIndexOSMId
    · rw [if_pos hc]
      exact ih kv.2
    · rw [if_neg hc]
      exact ih w

theorem lastTagValueFor_mem_some (cfg : TagFieldConfig) (i : Nat) (k v : String)
    (hnotid : some i ≠ cfg.m_nIndexOSMId) :
    ∀ (tags : List (String × String)) (init : Option String),
      (k, v) ∈ tags → getFieldIndexCfg cfg k = some i →
      ∃ u, lastTagValueFor cfg i init tags = some u := by
  intro tags
  induction tags with
  | nil => intro init hmem _; exact absurd hmem (List.not_mem_nil _)
  | cons kv tags ih =>
    intro init hmem hidx
    rw [lastTagValueFor, List.foldl_cons]
    rcases List.mem_cons.mp hmem with heq | htail
    · have hc : getFieldIndexCfg cfg kv.1 = some i ∧ some i ≠ cfg.m_nIndexOSMId := by
        rw [← heq]
        exact ⟨hidx, hnotid⟩
      rw [if_pos hc]
      exact lastTagValueFor_stays_some cfg i tags kv.2
    · by_cases hc : getFieldIndexCfg cfg kv.1 = some i ∧ some i ≠ cfg.m_nIndexOSMId
      · rw [if_pos hc]
        exact lastTagValueFor_stays_some cfg i tags kv.2
      · rw [if_neg hc]
        exact ih init htail hidx

theorem flushAllTags_other (cfg : TagFieldConfig)
    (st : List (Option String) × String) (i : Nat)
    (hall : cfg.m_nIndexAllTags ≠ some i)
    (hother : cfg.m_nIndexOtherTags ≠ some i) :
    (flushAllTags cfg st).getD i none = st.1.getD i none := by
  rw [flushAllTags]
  by_cases hb : st.2 = ""
  · rw [if_pos hb]
  · rw [if_neg hb]
    cases hA : cfg.m_nIndexAllTags with
    | some a =>
      simp only
      exact getD_set_ne _ _ _ _ (fun h => hall (by rw [hA, h]))
    | none =>
      cases hO : cfg.m_nIndexOtherTags with
      | some o =>
        simp only
        exact getD_set_ne _ _ _ _ (fun h => hother (by rw [hO, h]))
      | none => rfl

/-- C8: during tag projection, for every tag whose key names a declared
field other than the osm_id field (and not colliding with the aggregate
target fields), the projected record has that field set, and its value is
that of the last such tag in sequence order. -/
theorem c8_field_store (cfg : TagFieldConfig) (rec0 : List (Option String))
    (tags : List (String × String)) (k v : String) (i : Nat)
    (hmem : (k, v) ∈ tags) (hidx : getFieldIndexCfg cfg k = some i)
    (hnotid : some i ≠ cfg.m_nIndexOSMId) (hlen : i < rec0.length)
    (hall : cfg.m_nIndexAllTags ≠ some i)
    (hother : cfg.m_nIndexOtherTags ≠ some i) :
    (setFieldsFromTagsModel cfg rec0 tags).getD i none =
      lastTagValueFor cfg i (rec0.getD i none) tags ∧
    ∃ u, (setFieldsFromTagsModel cfg rec0 tags).getD i none = some u := by
  have h1 : (setFieldsFromTagsModel cfg rec0 tags).getD i none =
      lastTagValueFor cfg i (rec0.getD i none) tags := by
    rw [setFieldsFromTagsModel, flushAllTags_other cfg _ i hall hother]
    exact tagLoop_field cfg i tags (rec0, "") hlen
  refine ⟨h1, ?_⟩
  obtain ⟨u, hu⟩ :=
    lastTagValueFor_mem_some cfg i k v hnotid tags (rec0.getD i none) hmem hidx
  exact ⟨u, by rw [h1, hu]⟩

/-- C8 witness: a layer with fields highway and name, an entity with tags
highway=residential and name=Main St; the highway field is stored. -/
theorem c8_field_store_witness :
    (setFieldsFromTagsModel
        (⟨[("highway", 0), ("name", 1)], none, none, none, [], true⟩ : TagFieldConfig)
        [none, none]
        [("highway", "residential"), ("name", "Main St")]).getD 0 none =
      lastTagValueFor
        (⟨[("highway", 0), ("name", 1)], none, none, none, [], true⟩ : TagFieldConfig)
        0 ([(none : Option String), none].getD 0 none)
        [("highway", "residential"), ("name", "Main St")] ∧
    ∃ u, (setFieldsFromTagsModel
        (⟨[("highway", 0), ("name", 1)], none, none, none, [], true⟩ : TagFieldConfig)
        [none, none]
        [("highway", "residential"), ("name", "Main St")]).getD 0 none = some u :=
  c8_field_store _ _ _ "highway" "residential" 0 (by decide) (by decide)
    (by decide) (by decide) (by decide) (by decide)

/-- C10: when no tag of the entity joins the leftover-tag aggregate
buffer, the aggregate target field (all_tags or other_tags, at index a) is
left entirely unset on the record: it is not set to an empty string, an
empty pair list, or an empty JSON object. -/
theorem c10_empty_aggregate_unset (cfg : TagFieldConfig)
    (rec0 : List (Option String)) (tags : List (String × String)) (a : Nat)
    (hbuf : (tags.foldl (processTag cfg) (rec0, "")).2 = "")
    (hnotag : ∀ kv ∈ tags, getFieldIndexCfg cfg kv.1 ≠ some a)
    (h0 : rec0.getD a none = none) :
    (setFieldsFromTagsModel cfg rec0 tags).getD a none = none := by
  rw [setFieldsFromTagsModel]
  have hflush : flushAllTags cfg (tags.foldl (processTag cfg) (rec0, "")) =
      (tags.foldl (processTag cfg) (rec0, "")).1 := by
    rw [flushAllTags, if_pos hbuf]
  rw [hflush]
  have hloop : ∀ (ts : List (String × String)) (st : List (Option String) × String),
      (∀ kv ∈ ts, getFieldIndexCfg cfg kv.1 ≠ some a) →
      ((ts.foldl (processTag cfg) st).1).getD a none = st.1.getD a none := by
    intro ts
    induction ts with
    | nil => intro st _; rfl
    | cons kv ts ih =>
      intro st hn
      rw [List.foldl_cons, ih _ (fun x hx => hn x (List.mem_cons_of_mem kv hx))]
      rw [processTag_fst]
      cases hidx : getFieldIndexCfg cfg kv.1 with
      | none => rfl
      | some j =>
        simp only
        split
        · exact getD_set_ne _ _ _ _
            (fun h => hn kv (List.mem_cons_self kv ts) (by rw [hidx, h]))
        · rfl
  rw [hloop tags (rec0, "") hnotag]
  exact h0

/-- C10 witness: a layer with only other_tags declared at index 0 and the
single tag created_by=JOSM, whose key is in the ignore set; the aggregate
field stays unset. -/
theorem c10_empty_aggregate_unset_witness :
    (setFieldsFromTagsModel
        (⟨[], none, none, some 0, ["created_by"], true⟩ : TagFieldConfig)
        [none] [("created_by", "JOSM")]).getD 0 none = none :=
  c10_empty_aggregate_unset _ _ _ 0 (by decide) (by decide) (by decide)

theorem extract_cons_not_bracket (prev : Option Char) (c : Char) (rest : List Char)
    (h : ¬(c = '[' ∧ prev ≠ none ∧ prev ≠ some '\\')) :
    extractPlaceholders prev (c :: rest) =
      (c :: (extractPlaceholders (some c) rest).1,
       (extractPlaceholders (some c) rest).2) := by
  rw [extractPlaceholders]
  rw [if_neg h]

theorem prevAfter_cons (prev : Option Char) (c : Char) (l : List Char) :
    prevAfter prev (c :: l) = prevAfter (some c) l := by
  rw [prevAfter, prevAfter]
  cases hl : l.getLast? with
  | none =>
    have : l = [] := List.getLast?_eq_none_iff.mp hl
    subst this
    rfl
  | some d =>
    have : (c :: l).getLast? = some d := by
      cases l with
      | nil => simp at hl
      | cons x xs => rw [List.getLast?_cons_cons, hl]
    rw [this]

theorem extract_copies (l : List Char) :
    ∀ (hl : '[' ∉ l) (prev : Option Char) (rest : List Char),
      extractPlaceholders prev (l ++ rest) =
        (l ++ (extractPlaceholders (prevAfter prev l) rest).1,
         (extractPlaceholders (prevAfter prev l) rest).2) := by
  induction l with
  | nil => intro _ prev rest; simp [prevAfter]
  | cons c l ih =>
    intro hl prev rest
    have hc : c ≠ '[' := fun h => hl (h ▸ List.mem_cons_self c l)
    have hl2 : '[' ∉ l := fun h => hl (List.mem_cons_of_mem c h)
    rw [List.cons_append,
      extract_cons_not_bracket prev c (l ++ rest) (fun hcon => hc hcon.1),
      ih hl2 (some c) rest, prevAfter_cons]
    rfl

/-- C9: an opening bracket at position 0 of a computed-attribute
expression is never treated as a placeholder: for an expression of the
shape [name]... (with no further opening bracket inside name), extraction
keeps the bracketed group as literal text, binds no parameter for it, and
resumes scanning after the closing bracket; in particular the whole
rewrite pipeline maps the expression [name] + 1 to itself with an empty
bound-parameter list. -/
theorem c9_pos0_literal (name rest : List Char) (hname : '[' ∉ name) :
    extractPlaceholders none ('[' :: (name ++ (']' :: rest))) =
      ('[' :: (name ++ (']' :: (extractPlaceholders (some ']') rest).1)),
       (extractPlaceholders (some ']') rest).2) ∧
    rewriteComputedSQL "[name] + 1" = ("[name] + 1", []) := by
  constructor
  · rw [extract_cons_not_bracket none '[' (name ++ (']' :: rest)) (by simp)]
    have hsplit : name ++ (']' :: rest) = (name ++ [']']) ++ rest := by simp
    have hnb : '[' ∉ name ++ [']'] := by
      intro h
      rcases List.mem_append.mp h with h1 | h1
      · exact hname h1
      · simp at h1
    rw [hsplit, extract_copies (name ++ [']']) hnb (some '[') rest]
    have hpa : prevAfter (some '[') (name ++ [']']) = some ']' := by
      rw [prevAfter, List.getLast?_concat]
    rw [hpa]
    simp
  · simp [rewriteComputedSQL, extractPlaceholders, notCloseBracket, removeBackslashes]

/-- C9 witness: the theorem applied to name and the remainder of the
expression, with the bracket-free side condition checked concretely. -/
theorem c9_pos0_literal_witness :
    extractPlaceholders none
        ('[' :: (['n', 'a', 'm', 'e'] ++ (']' :: [' ', '+', ' ', '1']))) =
      ('[' :: (['n', 'a', 'm', 'e'] ++
        (']' :: (extractPlaceholders (some ']') [' ', '+', ' ', '1']).1)),
       (extractPlaceholders (some ']') [' ', '+', ' ', '1']).2) ∧
    rewriteComputedSQL "[name] + 1" = ("[name] + 1", []) :=
  c9_pos0_literal ['n', 'a', 'm', 'e'] [' ', '+', ' ', '1'] (by decide)

theorem fieldIndexOf_isSome (names : List String) (a : String) :
    (fieldIndexOf names a).isSome = true ↔ a ∈ names := by
  rw [fieldIndexOf, List.findIdx?_isSome]
  simp

/-- C5: declaring a computed attribute fails exactly when the lazily
opened backing store cannot be opened, the attribute name collides with an
existing field name, or the expression fails to compile against the
engine; on failure the field schema and computed-attribute list are
untouched (the error is recoverable: the function merely returns), and on
success exactly the new field and the new attribute are appended. -/
theorem c5_declaration_failures (openOk : Bool) (prepareOk : String → Bool)
    (pszName : String) (eType : OGRFieldType) (pszSQL : String)
    (st : LayerDefState) :
    ((addComputedAttribute openOk prepareOk pszName eType pszSQL st).2 = false ↔
      ((st.dbOpen = false ∧ openOk = false) ∨ pszName ∈ st.fieldNames ∨
        prepareOk (rewriteComputedSQL pszSQL).1 = false)) ∧
    ((addComputedAttribute openOk prepareOk pszName eType pszSQL st).2 = false →
      (addComputedAttribute openOk prepareOk pszName eType pszSQL st).1.fieldNames
          = st.fieldNames ∧
      (addComputedAttribute openOk prepareOk pszName eType pszSQL
          st).1.m_oComputedAttributes = st.m_oComputedAttributes) ∧
    ((addComputedAttribute openOk prepareOk pszName eType pszSQL st).2 = true →
      (addComputedAttribute openOk prepareOk pszName eType pszSQL st).1.fieldNames
          = st.fieldNames ++ [pszName] ∧
      (addComputedAttribute openOk prepareOk pszName eType pszSQL
          st).1.m_oComputedAttributes =
        st.m_oComputedAttributes ++
          [⟨pszName, eType, st.fieldNames.length, pszSQL,
            (rewriteComputedSQL pszSQL).2,
            (rewriteComputedSQL pszSQL).2.map (fieldIndexOf st.fieldNames)⟩]) := by
  by_cases h1 : st.dbOpen = false ∧ openOk = false
  · have hr : addComputedAttribute openOk prepareOk pszName eType pszSQL st
        = (st, false) := by
      rw [addComputedAttribute, if_pos h1]
    rw [hr]
    refine ⟨⟨fun _ => Or.inl h1, fun _ => rfl⟩, fun _ => ⟨rfl, rfl⟩, fun hc => ?_⟩
    exact absurd hc (by simp)
  · by_cases h2 : (fieldIndexOf st.fieldNames pszName).isSome = true
    · have hmem : pszName ∈ st.fieldNames := (fieldIndexOf_isSome _ _).mp h2
      have hr : addComputedAttribute openOk prepareOk pszName eType pszSQL st
          = ({ st with dbOpen := true }, false) := by
        rw [addComputedAttribute, if_neg h1]
        simp only [h2, if_true]
      rw [hr]
      refine ⟨⟨fun _ => Or.inr (Or.inl hmem), fun _ => rfl⟩,
        fun _ => ⟨rfl, rfl⟩, fun hc => ?_⟩
      exact absurd hc (by simp)
    · have hnmem : pszName ∉ st.fieldNames := by
        intro hm
        exact h2 ((fieldIndexOf_isSome _ _).mpr hm)
      by_cases h3 : prepareOk (rewriteComputedSQL pszSQL).1 = false
      · have hr : addComputedAttribute openOk prepareOk pszName eType pszSQL st
            = ({ st with dbOpen := true }, false) := by
          rw [addComputedAttribute, if_neg h1]
          simp only [h2, Bool.false_eq_true, if_false]
          rw [if_pos h3]
        rw [hr]
        refine ⟨⟨fun _ => Or.inr (Or.inr h3), fun _ => rfl⟩,
          fun _ => ⟨rfl, rfl⟩, fun hc => ?_⟩
        exact absurd hc (by simp)
      · have hr : addComputedAttribute openOk prepareOk pszName eType pszSQL st
            = (⟨st.fieldNames ++ [pszName],
                st.m_oComputedAttributes ++
                  [⟨pszName, eType, st.fieldNames.length, pszSQL,
                    (rewriteComputedSQL pszSQL).2,
                    (rewriteComputedSQL pszSQL).2.map
                      (fieldIndexOf st.fieldNames)⟩],
                true⟩, true) := by
          rw [addComputedAttribute, if_neg h1]
          simp only [h2, Bool.false_eq_true, if_false]
          rw [if_neg h3]
        rw [hr]
        refine ⟨⟨fun hc => absurd hc (by simp), fun hor => ?_⟩,
          fun hc => absurd hc (by simp), fun _ => ⟨rfl, rfl⟩⟩
        rcases hor with h | h | h
        · exact absurd h h1
        · exact absurd h hnmem
        · exact absurd h h3

/-- C5 witness: the theorem applied to a name colliding with an existing
field: the declaration fails and the schema and attribute list are
unchanged. -/
theorem c5_declaration_failures_witness :
    ((addComputedAttribute true (fun _ => true) "x" OGRFieldType.OFTInteger
        "SELECT 1" ⟨["x"], [], true⟩).2 = false ↔
      (((⟨["x"], [], true⟩ : LayerDefState).dbOpen = false ∧ true = false) ∨
        "x" ∈ (⟨["x"], [], true⟩ : LayerDefState).fieldNames ∨
        (fun _ => true) (rewriteComputedSQL "SELECT 1").1 = false)) ∧
    ((addComputedAttribute true (fun _ => true) "x" OGRFieldType.OFTInteger
        "SELECT 1" ⟨["x"], [], true⟩).2 = false →
      (addComputedAttribute true (fun _ => true) "x" OGRFieldType.OFTInteger
          "SELECT 1" ⟨["x"], [], true⟩).1.fieldNames = ["x"] ∧
      (addComputedAttribute true (fun _ => true) "x" OGRFieldType.OFTInteger
          "SELECT 1" ⟨["x"], [], true⟩).1.m_oComputedAttributes = []) ∧
    ((addComputedAttribute true (fun _ => true) "x" OGRFieldType.OFTInteger
        "SELECT 1" ⟨["x"], [], true⟩).2 = true →
      (addComputedAttribute true (fun _ => true) "x" OGRFieldType.OFTInteger
          "SELECT 1" ⟨["x"], [], true⟩).1.fieldNames = ["x"] ++ ["x"] ∧
      (addComputedAttribute true (fun _ => true) "x" OGRFieldType.OFTInteger
          "SELECT 1" ⟨["x"], [], true⟩).1.m_oComputedAttributes =
        [] ++ [⟨"x", OGRFieldType.OFTInteger, (["x"] : List String).length,
          "SELECT 1", (rewriteComputedSQL "SELECT 1").2,
          (rewriteComputedSQL "SELECT 1").2.map (fieldIndexOf ["x"])⟩]) :=
  c5_declaration_failures true (fun _ => true) "x" OGRFieldType.OFTInteger
    "SELECT 1" ⟨["x"], [], true⟩

/-- C6: for the general-path execute-store-reset tail, when the prepared
expression yields at least one row and exactly one result column, the
value is stored into the target field dispatched by its native type
(integer, float, or text); when no row is produced, or the result column
count differs from one, the target field is left untouched; and the
prepared statement is reset after every execution. -/
theorem c6_execute_store_reset {F : Type}
    (step : List (Option (SQLiteVal F)) → Option (SQLiteVal F) × Nat)
    (stmt : PreparedStmt F) (rec : List (Option (OGRFieldValue F)))
    (nIndex : Nat) :
    ((evalComputedStores step stmt rec nIndex).2).busy = false ∧
    (∀ i : Int, (step stmt.bindings).1 = some (SQLiteVal.vInteger i) →
      (step stmt.bindings).2 = 1 →
      (evalComputedStores step stmt rec nIndex).1 =
        rec.set nIndex (some (OGRFieldValue.fvInteger i))) ∧
    (∀ x : F, (step stmt.bindings).1 = some (SQLiteVal.vFloat x) →
      (step stmt.bindings).2 = 1 →
      (evalComputedStores step stmt rec nIndex).1 =
        rec.set nIndex (some (OGRFieldValue.fvDouble x))) ∧
    (∀ s : String, (step stmt.bindings).1 = some (SQLiteVal.vText s) →
      (step stmt.bindings).2 = 1 →
      (evalComputedStores step stmt rec nIndex).1 =
        rec.set nIndex (some (OGRFieldValue.fvText s))) ∧
    ((step stmt.bindings).1 = none →
      (evalComputedStores step stmt rec nIndex).1 = rec) ∧
    ((step stmt.bindings).2 ≠ 1 →
      (evalComputedStores step stmt rec nIndex).1 = rec) := by
  refine ⟨rfl, ?_, ?_, ?_, ?_, ?_⟩
  · intro i hrow hcol
    rw [evalComputedStores]
    simp only [hrow, hcol, if_true]
  · intro x hrow hcol
    rw [evalComputedStores]
    simp only [hrow, hcol, if_true]
  · intro s hrow hcol
    rw [evalComputedStores]
    simp only [hrow, hcol, if_true]
  · intro hrow
    rw [evalComputedStores]
    simp only [hrow]
  · intro hcol
    rw [evalComputedStores]
    cases hrow : (step stmt.bindings).1 with
    | none => simp only
    | some v => simp only [if_neg hcol]

/-- C6 witness: the theorem applied to an engine outcome of one row with
the single integer column 7: the value is stored and the statement is
reset; the no-row case leaves the record untouched. -/
theorem c6_execute_store_reset_witness :
    ((evalComputedStores (fun _ => (some (SQLiteVal.vInteger 7), 1))
        (⟨[], false⟩ : PreparedStmt Unit) [none] 0).2).busy = false ∧
    (evalComputedStores (fun _ => (some (SQLiteVal.vInteger 7), 1))
        (⟨[], false⟩ : PreparedStmt Unit) [none] 0).1 =
      [none].set 0 (some (OGRFieldValue.fvInteger 7)) ∧
    (evalComputedStores (fun _ => ((none : Option (SQLiteVal Unit)), 1))
        (⟨[], false⟩ : PreparedStmt Unit) [none] 0).1 = [none] :=
  ⟨(c6_execute_store_reset (fun _ => (some (SQLiteVal.vInteger 7), 1))
      ⟨[], false⟩ [none] 0).1,
   (c6_execute_store_reset (fun _ => (some (SQLiteVal.vInteger 7), 1))
      ⟨[], false⟩ [none] 0).2.1 7 rfl rfl,
   (c6_execute_store_reset (fun _ => ((none : Option (SQLiteVal Unit)), 1))
      ⟨[], false⟩ [none] 0).2.2.2.2.1 rfl⟩
